import Mathlib

/-!
Shallow embedding of the core logic of the trading-bot repository:
* `src/src/strategy/multi_tf.py` — the multi-timeframe signal engine
  (`MultiTimeframeStrategy`): SMA / ATR indicators, `generate_signal`,
  and the position lifecycle (`on_trade_entry`, `on_trade_exit`).
* `src/trade_matching.py` — the trade reconciliation matcher
  (`TradeComparator.compare`).

Prices, quantities and timestamps are modelled as rationals (timestamps in
seconds). Python floats are modelled as exact rationals; Python exceptions
(IndexError on out-of-range list access, ZeroDivisionError) are modelled by
the `Except String` monad, and Python `None` by `Option`.
-/

namespace TradingBot

/-- Decidable equality for `Except`, so concrete runs of the embedded code
can be checked by `decide`. -/
instance {ε α : Type} [DecidableEq ε] [DecidableEq α] : DecidableEq (Except ε α) :=
  fun a b =>
    match a, b with
    | .error x, .error y =>
      if h : x = y then .isTrue (by rw [h])
      else .isFalse fun he => h (Except.error.inj he)
    | .ok x, .ok y =>
      if h : x = y then .isTrue (by rw [h])
      else .isFalse fun he => h (Except.ok.inj he)
    | .error _, .ok _ => .isFalse fun he => Except.noConfusion he
    | .ok _, .error _ => .isFalse fun he => Except.noConfusion he

/-- `TradeDirection` enum from multi_tf.py (LONG = "BUY", SHORT = "SELL"). -/
inductive TradeDirection where
  | LONG
  | SHORT
deriving DecidableEq, Repr

/-- The opposite trade direction. -/
def TradeDirection.opposite : TradeDirection → TradeDirection
  | .LONG => .SHORT
  | .SHORT => .LONG

/-- `Signal` dataclass from multi_tf.py. -/
structure Signal where
  timestamp : ℚ
  symbol : String
  direction : TradeDirection
  confidence : ℚ
  reason : String
deriving DecidableEq, Repr

/-- `Position` dataclass from multi_tf.py. -/
structure Position where
  symbol : String
  direction : TradeDirection
  entry_price : ℚ
  entry_time : ℚ
  quantity : ℚ
  stop_loss : ℚ
  take_profit : ℚ
deriving DecidableEq, Repr

/-- The mutable attributes of a `MultiTimeframeStrategy` instance
(set in `__init__`, `position` mutated by entry/exit). -/
structure Strategy where
  symbol : String
  risk_per_trade : ℚ
  position : Option Position
  fast_ma_period : Nat
  slow_ma_period : Nat
  hourly_ma_period : Nat
  atr_multiplier_sl : ℚ
  atr_multiplier_tp : ℚ
  atr_period : Nat
deriving DecidableEq, Repr

/-- `MultiTimeframeStrategy.__init__`: default parameters. -/
def mkStrategy (symbol : String) : Strategy :=
  { symbol := symbol
    risk_per_trade := 2/100
    position := none
    fast_ma_period := 9
    slow_ma_period := 21
    hourly_ma_period := 20
    atr_multiplier_sl := 2
    atr_multiplier_tp := 3
    atr_period := 14 }

/-- Python float division: raises ZeroDivisionError on a zero denominator. -/
def pyDiv (a b : ℚ) : Except String ℚ :=
  if b = 0 then .error "ZeroDivisionError" else .ok (a / b)

/-- Python `xs[i]` for a non-negative index: raises IndexError out of range. -/
def pyGet (xs : List ℚ) (i : Nat) : Except String ℚ :=
  match xs[i]? with
  | some v => .ok v
  | none => .error "IndexError"

/-- Python `xs[-1]`: the last element, IndexError on an empty list. -/
def pyLast (xs : List ℚ) : Except String ℚ :=
  match xs.getLast? with
  | some v => .ok v
  | none => .error "IndexError"

/-- Python `xs[-n:]` for a natural `n`: the whole list when `n = 0`,
otherwise the last `min n (length xs)` elements. -/
def pySliceLast (n : Nat) (xs : List ℚ) : List ℚ :=
  if n = 0 then xs else xs.drop (xs.length - n)

/-- `MultiTimeframeStrategy.calculate_sma`: `None` when fewer than `period`
prices are available, otherwise `sum(prices[-period:]) / period`. -/
def calculate_sma (prices : List ℚ) (period : Nat) : Except String (Option ℚ) :=
  if prices.length < period then .ok none
  else
    match pyDiv (pySliceLast period prices).sum (period : ℚ) with
    | .error e => .error e
    | .ok v => .ok (some v)

/-- Python `max` of two floats (kernel-computable form of `max` on `ℚ`). -/
def pyMax (a b : ℚ) : ℚ := if a ≤ b then b else a

/-- Python `abs` of a float (kernel-computable form of `|·|` on `ℚ`). -/
def pyAbs (a : ℚ) : ℚ := if a < 0 then -a else a

/-- The true range of bar `i` (for `i ≥ 1`):
`max(high[i]-low[i], |high[i]-close[i-1]|, |low[i]-close[i-1]|)`. -/
def trAt (highs lows closes : List ℚ) (i : Nat) : Except String ℚ :=
  match pyGet highs i with
  | .error e => .error e
  | .ok hi =>
    match pyGet lows i with
    | .error e => .error e
    | .ok li =>
      match pyGet closes (i - 1) with
      | .error e => .error e
      | .ok pc => .ok (pyMax (pyMax (hi - li) (pyAbs (hi - pc))) (pyAbs (li - pc)))

/-- Mapping an `Except`-valued function over a list, failing on the first
error (models a Python loop that appends to a list and may raise). -/
def mapExcept (f : Nat → Except String ℚ) : List Nat → Except String (List ℚ)
  | [] => .ok []
  | i :: is =>
    match f i with
    | .error e => .error e
    | .ok v =>
      match mapExcept f is with
      | .error e => .error e
      | .ok vs => .ok (v :: vs)

/-- The `tr_values` list built by `calculate_atr`'s loop
`for i in range(1, len(closes))`. -/
def trList (highs lows closes : List ℚ) : Except String (List ℚ) :=
  mapExcept (trAt highs lows closes) (List.range' 1 (closes.length - 1))

/-- `MultiTimeframeStrategy.calculate_atr`: `None` when `len(closes)` is
below the ATR period, otherwise `sum(tr_values[-atr_period:]) / atr_period`
over the true ranges of bars `1 .. len(closes)-1`. -/
def calculate_atr (highs lows closes : List ℚ) (atr_period : Nat) :
    Except String (Option ℚ) :=
  if closes.length < atr_period then .ok none
  else
    match trList highs lows closes with
    | .error e => .error e
    | .ok trs =>
      match pyDiv (pySliceLast atr_period trs).sum (atr_period : ℚ) with
      | .error e => .error e
      | .ok v => .ok (some v)

/-- The EXIT LOGIC block of `generate_signal` (multi_tf.py lines 166-187):
with an open LONG and fast < slow emit a SHORT exit signal (confidence 0.8);
with an open SHORT and fast > slow emit a LONG exit signal (confidence 0.8). -/
def exitLogic (s : Strategy) (fast_ma slow_ma timestamp : ℚ) : Option Signal :=
  match s.position with
  | none => none
  | some p =>
    if p.direction = .LONG ∧ fast_ma < slow_ma then
      some ⟨timestamp, s.symbol, .SHORT, 8/10, "Exit: Fast MA < Slow MA (reversal)"⟩
    else if p.direction = .SHORT ∧ fast_ma > slow_ma then
      some ⟨timestamp, s.symbol, .LONG, 8/10, "Exit: Fast MA > Slow MA (reversal)"⟩
    else none

/-- The branch structure of `generate_signal` after the indicators are
available and truthy: the entry `if`/`elif` (guarded by `position is None`)
falling through to the EXIT LOGIC block. -/
def signalCore (s : Strategy) (fast_ma slow_ma hourly_ma current_price timestamp : ℚ) :
    Option Signal :=
  if fast_ma > slow_ma ∧ current_price > hourly_ma then
    match s.position with
    | none =>
      some ⟨timestamp, s.symbol, .LONG, 7/10,
        "Fast MA > Slow MA, Price above hourly MA"⟩
    | some _ => exitLogic s fast_ma slow_ma timestamp
  else if fast_ma < slow_ma ∧ current_price < hourly_ma then
    match s.position with
    | none =>
      some ⟨timestamp, s.symbol, .SHORT, 7/10,
        "Fast MA < Slow MA, Price below hourly MA"⟩
    | some _ => exitLogic s fast_ma slow_ma timestamp
  else exitLogic s fast_ma slow_ma timestamp

/-- `MultiTimeframeStrategy.generate_signal`: computes the two 15-minute
SMAs, the hourly SMA and the ATR, returns `None` unless all four are truthy
(Python `all` — a `None` or a `0.0` indicator short-circuits to no signal),
then runs the entry/exit branch logic on `current_price = closes_15m[-1]`. -/
def generate_signal (s : Strategy) (closes_15m highs_15m lows_15m closes_1h : List ℚ)
    (timestamp : ℚ) : Except String (Option Signal) :=
  match calculate_sma closes_15m s.fast_ma_period with
  | .error e => .error e
  | .ok fast_ma =>
    match calculate_sma closes_15m s.slow_ma_period with
    | .error e => .error e
    | .ok slow_ma =>
      match calculate_sma closes_1h s.hourly_ma_period with
      | .error e => .error e
      | .ok hourly_ma =>
        match calculate_atr highs_15m lows_15m closes_15m s.atr_period with
        | .error e => .error e
        | .ok atr =>
          match fast_ma, slow_ma, hourly_ma, atr with
          | some f, some sl, some hm, some a =>
            if f = 0 ∨ sl = 0 ∨ hm = 0 ∨ a = 0 then .ok none
            else
              match pyLast closes_15m with
              | .error e => .error e
              | .ok current_price => .ok (signalCore s f sl hm current_price timestamp)
          | _, _, _, _ => .ok none

/-- `MultiTimeframeStrategy.on_trade_entry`: unconditionally builds a fresh
`Position` with ATR-derived stop-loss and take-profit, stores it in
`self.position` and returns it. -/
def on_trade_entry (s : Strategy) (symbol : String) (direction : TradeDirection)
    (entry_price entry_time quantity atr : ℚ) : Position × Strategy :=
  let sl : ℚ :=
    if direction = .LONG then entry_price - atr * s.atr_multiplier_sl
    else entry_price + atr * s.atr_multiplier_sl
  let tp : ℚ :=
    if direction = .LONG then entry_price + atr * s.atr_multiplier_tp
    else entry_price - atr * s.atr_multiplier_tp
  let pos : Position :=
    { symbol := symbol
      direction := direction
      entry_price := entry_price
      entry_time := entry_time
      quantity := quantity
      stop_loss := sl
      take_profit := tp }
  (pos, { s with position := some pos })

/-- The trade dictionary returned by `on_trade_exit`. -/
structure TradeOut where
  symbol : String
  direction : TradeDirection
  entry_price : ℚ
  entry_time : ℚ
  exit_price : ℚ
  exit_time : ℚ
  quantity : ℚ
  pnl : ℚ
  sl : ℚ
  tp : ℚ
deriving DecidableEq, Repr

/-- `MultiTimeframeStrategy.on_trade_exit`: with no open position returns the
empty dict (modelled `none`) and leaves the state alone; otherwise computes
`pnl = (exit_price - entry_price) * quantity`, negated for SHORT, returns the
trade record and clears `self.position`. -/
def on_trade_exit (s : Strategy) (exit_price exit_time : ℚ) :
    Option TradeOut × Strategy :=
  match s.position with
  | none => (none, s)
  | some p =>
    let pnl0 : ℚ := (exit_price - p.entry_price) * p.quantity
    let pnl : ℚ := if p.direction = .SHORT then -pnl0 else pnl0
    (some
      { symbol := p.symbol
        direction := p.direction
        entry_price := p.entry_price
        entry_time := p.entry_time
        exit_price := exit_price
        exit_time := exit_time
        quantity := p.quantity
        pnl := pnl
        sl := p.stop_loss
        tp := p.take_profit },
      { s with position := none })

/-- Example state with an open LONG position (entry 100, quantity 1,
SL 90 and TP 115, as produced by `on_trade_entry` with ATR 5). -/
def openLong : Strategy :=
  { mkStrategy "BTCUSDT" with
      position := some ⟨"BTCUSDT", .LONG, 100, 0, 1, 90, 115⟩ }

/-- Example state with an open SHORT position (entry 100, quantity 1). -/
def openShort : Strategy :=
  { mkStrategy "BTCUSDT" with
      position := some ⟨"BTCUSDT", .SHORT, 100, 0, 1, 110, 85⟩ }

/-- 21 fifteen-minute closes whose fast (9-period) MA is 1 and whose slow
(21-period) MA is 129/21, so fast < slow, with last close 1. -/
def exClo15 : List ℚ := List.replicate 12 10 ++ List.replicate 9 1

/-- Example 15-minute highs (constant 20): every true range is 20. -/
def exHi15 : List ℚ := List.replicate 21 20

/-- Example 15-minute lows (constant 0). -/
def exLo15 : List ℚ := List.replicate 21 0

/-- Example 1-hour closes (constant 5): hourly MA is 5. -/
def exClo1h : List ℚ := List.replicate 20 5

/-- The signal `generate_signal` produces from `openLong` on the example
series at timestamp 99: an exit, direction SHORT, confidence 0.8. -/
def exExitSignal : Signal :=
  ⟨99, "BTCUSDT", .SHORT, 8/10, "Exit: Fast MA < Slow MA (reversal)"⟩

namespace Matching

/-- A row of a trade log as the matcher sees it: symbol, direction (the CSV
strings "BUY"/"SELL"), entry price, and the parsed entry time `dt`
(`none` models an unparsable timestamp, as produced by `parse_time`). -/
structure TradeRec where
  symbol : String
  direction : String
  entry_price : ℚ
  dt : Option ℚ
deriving DecidableEq, Repr

/-- Rows of a dataframe paired with their indices, starting at `n`. -/
def enumL (n : Nat) : List TradeRec → List (Nat × TradeRec)
  | [] => []
  | x :: xs => (n, x) :: enumL (n + 1) xs

/-- The `if score < min_score` update of the running best match: `best` is
`none` for `min_score = inf` and otherwise holds `(best_idx, min_score)`. -/
def accUpd (i : Nat) (score : ℚ) : Option (Nat × ℚ) → Option (Nat × ℚ)
  | none => some (i, score)
  | some (bi, ms) => if score < ms then some (i, score) else some (bi, ms)

/-- The inner loop of `TradeComparator.compare` over the symbol/direction
filtered backtest rows: skip consumed indices and unparsable rows, check the
time tolerance, compute the relative price difference (Python float division
— may raise ZeroDivisionError), check the price tolerance, and keep the
first row attaining the strictly smallest score
`time_diff_seconds + price_pct_diff * 10000`. -/
def innerLoop (ttol ptol : ℚ) (lt : TradeRec) (ltTime : ℚ) (consumed : Finset ℕ) :
    List (Nat × TradeRec) → Option (Nat × ℚ) → Except String (Option Nat)
  | [], best => .ok (best.map Prod.fst)
  | (i, bt) :: rest, best =>
    if i ∈ consumed then innerLoop ttol ptol lt ltTime consumed rest best
    else
      match bt.dt with
      | none => innerLoop ttol ptol lt ltTime consumed rest best
      | some btTime =>
        if pyAbs (ltTime - btTime) ≤ ttol then
          match pyDiv (pyAbs (lt.entry_price - bt.entry_price))
              ((lt.entry_price + bt.entry_price) / 2) with
          | .error e => .error e
          | .ok pct =>
            if pct ≤ ptol then
              innerLoop ttol ptol lt ltTime consumed rest
                (accUpd i (pyAbs (ltTime - btTime) + pct * 10000) best)
            else innerLoop ttol ptol lt ltTime consumed rest best
        else innerLoop ttol ptol lt ltTime consumed rest best

/-- The matcher's running state: consumed backtest indices
(`matched_indices_bt`), the matched / unmatched-live counters, and the
matched pairs `(live_idx, bt_idx)` in the order they are logged. -/
structure MState where
  consumed : Finset ℕ
  matched : ℕ
  unmatchedLive : ℕ
  pairs : List (ℕ × ℕ)

/-- Initial matcher state. -/
def initState : MState := ⟨∅, 0, 0, []⟩

/-- One iteration of the outer loop of `compare` for the live row `lt` at
index `li`: an unparsable live row is skipped outright (`continue`) touching
no counter; otherwise the backtest rows sharing symbol and direction are
scanned for the best match, which is consumed, or `unmatched_live` is
incremented. -/
def step (ttol ptol : ℚ) (btE : List (Nat × TradeRec)) (st : MState)
    (li : ℕ) (lt : TradeRec) : Except String MState :=
  match lt.dt with
  | none => .ok st
  | some t =>
    let cands := btE.filter fun p =>
      p.2.symbol == lt.symbol && p.2.direction == lt.direction
    match innerLoop ttol ptol lt t st.consumed cands none with
    | .error e => .error e
    | .ok none => .ok { st with unmatchedLive := st.unmatchedLive + 1 }
    | .ok (some i) =>
      .ok { st with
              matched := st.matched + 1
              consumed := insert i st.consumed
              pairs := st.pairs ++ [(li, i)] }

/-- The outer loop of `compare` over the live rows, carrying the row index. -/
def runLive (ttol ptol : ℚ) (btE : List (Nat × TradeRec)) :
    Nat → MState → List TradeRec → Except String MState
  | _, st, [] => .ok st
  | k, st, lt :: rest =>
    match step ttol ptol btE st k lt with
    | .error e => .error e
    | .ok st2 => runLive ttol ptol btE (k + 1) st2 rest

/-- The report produced by `compare`: the three counters, the matched pairs,
and the match rate, which is only computed (logged) when there is at least
one live trade — `none` models the "No live trades to match." branch. -/
structure CompareResult where
  matched : ℕ
  unmatched_live : ℕ
  unmatched_bt : ℕ
  pairs : List (ℕ × ℕ)
  matchRate : Option ℚ
deriving DecidableEq, Repr

/-- `TradeComparator.compare` on already-loaded collections: `bt` is the
backtest (reference) list, `live` the live (candidate) list; `ttol` is the
time tolerance in seconds, `ptol` the relative price tolerance. -/
def compare (ttol ptol : ℚ) (bt live : List TradeRec) :
    Except String CompareResult :=
  match runLive ttol ptol (enumL 0 bt) 0 initState live with
  | .error e => .error e
  | .ok st =>
    .ok { matched := st.matched
          unmatched_live := st.unmatchedLive
          unmatched_bt := bt.length - st.consumed.card
          pairs := st.pairs
          matchRate :=
            if 0 < live.length then
              some ((st.matched : ℚ) / (live.length : ℚ) * 100)
            else none }

/-- `TradeComparator.__init__` default time tolerance: 5 minutes,
in seconds. -/
def defaultTimeTol : ℚ := 5 * 60

/-- `TradeComparator.__init__` default price tolerance: 2%. -/
def defaultPriceTol : ℚ := 2 / 100

/-- Whether an unconsumed, parsable reference row is within both the time
tolerance and the relative-price tolerance of the candidate `lt`. -/
def innerOk (ttol ptol : ℚ) (lt : TradeRec) (ltTime : ℚ) (consumed : Finset ℕ)
    (p : Nat × TradeRec) : Bool :=
  !(decide (p.1 ∈ consumed)) &&
  match p.2.dt with
  | none => false
  | some u =>
    decide (|ltTime - u| ≤ ttol) &&
    decide (|lt.entry_price - p.2.entry_price| /
      ((lt.entry_price + p.2.entry_price) / 2) ≤ ptol)

/-- Spec-side characterisation of the reference rows a candidate `lt` may be
paired with: restrict the pool to rows sharing symbol and direction, then
keep the unconsumed, parsable rows within both tolerances. -/
def survivors (ttol ptol : ℚ) (lt : TradeRec) (ltTime : ℚ) (consumed : Finset ℕ)
    (btE : List (Nat × TradeRec)) : List (Nat × TradeRec) :=
  (btE.filter fun p =>
    p.2.symbol == lt.symbol && p.2.direction == lt.direction).filter
    (innerOk ttol ptol lt ltTime consumed)

/-- Spec-side composite score of pairing candidate `lt` (entry time
`ltTime`) with a parsable reference row `q`: time difference in seconds plus
10000 times the relative price difference. -/
def pairScore (lt : TradeRec) (ltTime : ℚ) (q : TradeRec) : ℚ :=
  match q.dt with
  | none => 0
  | some u =>
    |ltTime - u| +
      (|lt.entry_price - q.entry_price| /
        ((lt.entry_price + q.entry_price) / 2)) * 10000

/-- The number of records whose timestamp parsed. -/
def parsableCount (l : List TradeRec) : Nat :=
  (l.filter fun r => r.dt.isSome).length

/-- Example backtest (reference) record: BTCUSDT BUY at 100, time 0. -/
def exBt : TradeRec := ⟨"BTCUSDT", "BUY", 100, some 0⟩

/-- Example live (candidate) record: BTCUSDT BUY at 101, 120 s later. -/
def exLive : TradeRec := ⟨"BTCUSDT", "BUY", 101, some 120⟩

/-- A live record whose timestamp failed to parse. -/
def badLive : TradeRec := ⟨"BTCUSDT", "BUY", 100, none⟩

end Matching

/-! ### Helper lemmas about the indicator computations -/

theorem pyDiv_ok (a b : ℚ) (h : b ≠ 0) : pyDiv a b = .ok (a / b) := by
  simp [pyDiv, h]

theorem pyGet_ok (xs : List ℚ) (i : Nat) (h : i < xs.length) :
    pyGet xs i = .ok xs[i] := by
  simp [pyGet, List.getElem?_eq_getElem h]

theorem mapExcept_length (f : Nat → Except String ℚ) :
    ∀ (l : List Nat) (vs : List ℚ), mapExcept f l = .ok vs → vs.length = l.length := by
  intro l
  induction l with
  | nil =>
    intro vs h
    simp only [mapExcept, Except.ok.injEq] at h
    simp [← h]
  | cons i is ih =>
    intro vs h
    simp only [mapExcept] at h
    cases hf : f i with
    | error e => rw [hf] at h; cases h
    | ok v =>
      rw [hf] at h
      cases hm : mapExcept f is with
      | error e => rw [hm] at h; cases h
      | ok ws =>
        rw [hm] at h
        injection h with h2
        subst h2
        simp [ih ws hm]

theorem mapExcept_ok (f : Nat → Except String ℚ) :
    ∀ l : List Nat, (∀ i ∈ l, ∃ v, f i = .ok v) →
      ∃ vs, mapExcept f l = .ok vs := by
  intro l
  induction l with
  | nil => exact fun _ => ⟨[], rfl⟩
  | cons i is ih =>
    intro h
    obtain ⟨v, hv⟩ := h i (by simp)
    obtain ⟨vs, hvs⟩ := ih fun j hj => h j (by simp [hj])
    exact ⟨v :: vs, by simp [mapExcept, hv, hvs]⟩

theorem trAt_ok (highs lows closes : List ℚ) (i : Nat)
    (hh : i < highs.length) (hl : i < lows.length) (hc : i - 1 < closes.length) :
    ∃ v, trAt highs lows closes i = .ok v := by
  refine ⟨pyMax (pyMax (highs[i] - lows[i]) (pyAbs (highs[i] - closes[i - 1])))
    (pyAbs (lows[i] - closes[i - 1])), ?_⟩
  simp [trAt, pyGet_ok highs i hh, pyGet_ok lows i hl, pyGet_ok closes (i - 1) hc]

theorem trList_ok (highs lows closes : List ℚ)
    (hh : closes.length ≤ highs.length) (hl : closes.length ≤ lows.length) :
    ∃ trs, trList highs lows closes = .ok trs ∧ trs.length = closes.length - 1 := by
  have hmem : ∀ i ∈ List.range' 1 (closes.length - 1), ∃ v, trAt highs lows closes i = .ok v := by
    intro i hi
    rw [List.mem_range'_1] at hi
    exact trAt_ok highs lows closes i (by omega) (by omega) (by omega)
  obtain ⟨trs, htrs⟩ := mapExcept_ok _ _ hmem
  refine ⟨trs, htrs, ?_⟩
  rw [mapExcept_length _ _ _ htrs]
  simp

theorem calculate_atr_none (highs lows closes : List ℚ) (ap : Nat)
    (h : closes.length < ap) : calculate_atr highs lows closes ap = .ok none := by
  simp [calculate_atr, h]

theorem calculate_atr_some (highs lows closes : List ℚ) (ap : Nat) (trs : List ℚ)
    (hap : 0 < ap) (hlen : ap ≤ closes.length)
    (htr : trList highs lows closes = .ok trs) :
    calculate_atr highs lows closes ap =
      .ok (some ((pySliceLast ap trs).sum / (ap : ℚ))) := by
  have hge : ¬ closes.length < ap := by omega
  have hne : ((ap : ℚ)) ≠ 0 := Nat.cast_ne_zero.mpr (by omega)
  simp [calculate_atr, hge, htr, pyDiv_ok _ _ hne]

theorem calculate_sma_eq (prices : List ℚ) (period : Nat) (hp : 0 < period) :
    calculate_sma prices period =
      .ok (if prices.length < period then none
           else some ((pySliceLast period prices).sum / (period : ℚ))) := by
  have hne : ((period : ℚ)) ≠ 0 := Nat.cast_ne_zero.mpr (by omega)
  by_cases h : prices.length < period
  · simp [calculate_sma, h]
  · simp [calculate_sma, h, pyDiv_ok _ _ hne]

/-! ### C1 — entering a position twice -/

/-- **C1** (counterexample): with a position already open (`openLong`, entry
price 100), a second `on_trade_entry` without an intervening exit is *not* a
no-op: the stored `Position` changes, and the call returns a usable
`Position` whose entry price is the new 200. -/
theorem c1_second_entry_not_noop_cex :
    (on_trade_entry openLong "BTCUSDT" TradeDirection.LONG 200 1 1 5).2.position ≠
      openLong.position ∧
    openLong.position.isSome = true ∧
    (on_trade_entry openLong "BTCUSDT" TradeDirection.LONG 200 1 1 5).1.entry_price
      = 200 := by
  refine ⟨by decide, rfl, rfl⟩

/-- **C1** (amended): calling `on_trade_entry` while a position is already
open does not fail and is not a no-op: it unconditionally overwrites the
stored `Position` with a freshly built one (carrying the new symbol,
direction and entry price) and returns that position. -/
theorem c1_entry_overwrites_open_position (s : Strategy) (p : Position)
    (sym : String) (dir : TradeDirection) (ep et q a : ℚ)
    (hopen : s.position = some p) :
    (on_trade_entry s sym dir ep et q a).2.position =
      some (on_trade_entry s sym dir ep et q a).1 ∧
    (on_trade_entry s sym dir ep et q a).1.symbol = sym ∧
    (on_trade_entry s sym dir ep et q a).1.direction = dir ∧
    (on_trade_entry s sym dir ep et q a).1.entry_price = ep :=
  ⟨rfl, rfl, rfl, rfl⟩

/-- **C1** witness: the amended theorem at the concrete open state. -/
theorem c1_entry_overwrites_open_position_witness :
    openLong.position = some ⟨"BTCUSDT", TradeDirection.LONG, 100, 0, 1, 90, 115⟩ ∧
    ((on_trade_entry openLong "BTCUSDT" TradeDirection.SHORT 200 1 1 5).2.position =
        some (on_trade_entry openLong "BTCUSDT" TradeDirection.SHORT 200 1 1 5).1 ∧
      (on_trade_entry openLong "BTCUSDT" TradeDirection.SHORT 200 1 1 5).1.symbol =
        "BTCUSDT" ∧
      (on_trade_entry openLong "BTCUSDT" TradeDirection.SHORT 200 1 1 5).1.direction =
        TradeDirection.SHORT ∧
      (on_trade_entry openLong "BTCUSDT" TradeDirection.SHORT 200 1 1 5).1.entry_price =
        200) :=
  ⟨rfl, c1_entry_overwrites_open_position openLong
    ⟨"BTCUSDT", TradeDirection.LONG, 100, 0, 1, 90, 115⟩
    "BTCUSDT" TradeDirection.SHORT 200 1 1 5 rfl⟩

/-! ### C2 — the ATR boundary case -/

/-- **C2** (counterexample): with `atr_period = 14` and exactly 14 bars there
are only 13 true-range values, each equal to 1 here; the code returns their
sum divided by 14 (= 13/14), *not* their arithmetic mean (= 1). -/
theorem c2_atr_boundary_cex :
    calculate_atr (List.replicate 14 (1 : ℚ)) (List.replicate 14 (0 : ℚ))
      (List.replicate 14 (1/2 : ℚ)) 14 = .ok (some (13/14)) ∧
    trList (List.replicate 14 (1 : ℚ)) (List.replicate 14 (0 : ℚ))
      (List.replicate 14 (1/2 : ℚ)) = .ok (List.replicate 13 (1 : ℚ)) ∧
    (13/14 : ℚ) ≠ (List.replicate 13 (1 : ℚ)).sum / 13 := by
  refine ⟨by with_unfolding_all rfl, by with_unfolding_all rfl, ?_⟩
  norm_num

/-- **C2** (amended): for `len(closes) ≥ atr_period` the ATR equals the sum
of the last `min(atr_period, len(closes) − 1)` true-range values divided by
`atr_period`: the arithmetic mean of the last `atr_period` true ranges when
`len(closes) ≥ atr_period + 1`, but when `len(closes) = atr_period` only
`atr_period − 1` true ranges exist and the divisor is still `atr_period`. -/
theorem c2_atr_formula (highs lows closes : List ℚ) (ap : Nat) (trs : List ℚ)
    (hap : 0 < ap) (hlen : ap ≤ closes.length)
    (htr : trList highs lows closes = .ok trs) :
    calculate_atr highs lows closes ap =
      .ok (some ((trs.drop (trs.length - ap)).sum / (ap : ℚ))) ∧
    trs.length = closes.length - 1 := by
  constructor
  · rw [calculate_atr_some highs lows closes ap trs hap hlen htr]
    have : pySliceLast ap trs = trs.drop (trs.length - ap) := by
      simp [pySliceLast]
      omega
    rw [this]
  · have := mapExcept_length (trAt highs lows closes) _ _ htr
    simpa using this

/-- **C2** witness: ATR period 3 on 4 bars with true ranges `[2, 3, 4]`
gives the mean `(2+3+4)/3 = 3` of the last 3 true ranges. -/
theorem c2_atr_formula_witness :
    calculate_atr [1, 2, 3, 4] [0, 0, 0, 0] [1, 2, 3, 4] 3 = .ok (some 3) ∧
    trList [1, 2, 3, 4] [0, 0, 0, 0] [1, 2, 3, 4] = .ok [2, 3, 4] := by
  have h := c2_atr_formula [1, 2, 3, 4] [0, 0, 0, 0] [1, 2, 3, 4] 3 [2, 3, 4]
    (by norm_num) (by norm_num) (by with_unfolding_all rfl)
  refine ⟨?_, by with_unfolding_all rfl⟩
  rw [h.1]
  norm_num

/-! ### C7 — PnL on exit -/

/-- **C7**: with an open position, `on_trade_exit` returns a trade record
whose pnl is `(exit − entry) × quantity` for LONG and its negation for
SHORT, and clears the stored position. -/
theorem c7_exit_pnl (s : Strategy) (p : Position) (ep et : ℚ)
    (hopen : s.position = some p) :
    (on_trade_exit s ep et).1.map TradeOut.pnl =
      some (if p.direction = TradeDirection.LONG
            then (ep - p.entry_price) * p.quantity
            else -((ep - p.entry_price) * p.quantity)) ∧
    (on_trade_exit s ep et).2.position = none := by
  cases hd : p.direction <;> simp [on_trade_exit, hopen, hd]

/-- **C7** witness: LONG entry 100, quantity 1, exit 110 gives pnl 10; SHORT
with the same numbers gives pnl −10; both clear the position. -/
theorem c7_exit_pnl_witness :
    (on_trade_exit openLong 110 1).1.map TradeOut.pnl = some 10 ∧
    (on_trade_exit openLong 110 1).2.position = none ∧
    (on_trade_exit openShort 110 1).1.map TradeOut.pnl = some (-10) ∧
    (on_trade_exit openShort 110 1).2.position = none := by
  have hL := c7_exit_pnl openLong
    ⟨"BTCUSDT", TradeDirection.LONG, 100, 0, 1, 90, 115⟩ 110 1 rfl
  have hS := c7_exit_pnl openShort
    ⟨"BTCUSDT", TradeDirection.SHORT, 100, 0, 1, 110, 85⟩ 110 1 rfl
  refine ⟨?_, hL.2, ?_, hS.2⟩
  · rw [hL.1, if_pos (by decide)]; norm_num
  · rw [hS.1, if_neg (by decide)]; norm_num

/-! ### C6 — short series give no signal (modulo ragged OHLC input) -/

theorem generate_signal_none_of_indicator_none (s : Strategy)
    (cl15 h15 l15 cl1h : List ℚ) (ts : ℚ) (u v w x : Option ℚ)
    (hf : calculate_sma cl15 s.fast_ma_period = .ok u)
    (hs : calculate_sma cl15 s.slow_ma_period = .ok v)
    (hh : calculate_sma cl1h s.hourly_ma_period = .ok w)
    (ha : calculate_atr h15 l15 cl15 s.atr_period = .ok x)
    (hnone : u = none ∨ v = none ∨ w = none ∨ x = none) :
    generate_signal s cl15 h15 l15 cl1h ts = .ok none := by
  simp only [generate_signal, hf, hs, hh, ha]
  rcases u with _ | f <;> rcases v with _ | g <;> rcases w with _ | m <;>
    rcases x with _ | a <;> simp_all

/-- **C6** (counterexample): the 15-minute highs list (length 13) is shorter
than the configured ATR period 14 while the closes list has length 14, so
the true-range loop indexes past the end of `highs`: `generate_signal`
raises IndexError instead of returning no signal. -/
theorem c6_short_highs_raise_cex :
    generate_signal (mkStrategy "BTCUSDT") (List.replicate 14 1)
      (List.replicate 13 2) (List.replicate 14 0) [] 0 = .error "IndexError" ∧
    (List.replicate 13 (2 : ℚ)).length < (mkStrategy "BTCUSDT").atr_period := by
  exact ⟨by with_unfolding_all rfl, by decide⟩

/-- **C6** (amended): provided the 15-minute highs and lows are at least as
long as the 15-minute closes (no ragged OHLC input), whenever any price
series is shorter than its configured period (fast 9, slow 21, hourly 20,
ATR 14) `generate_signal` returns no signal and raises no exception. -/
theorem c6_short_series_no_signal (sym : String) (pos : Option Position)
    (cl15 h15 l15 cl1h : List ℚ) (ts : ℚ)
    (hh : cl15.length ≤ h15.length) (hl : cl15.length ≤ l15.length)
    (hshort : cl15.length < 9 ∨ cl15.length < 21 ∨ cl1h.length < 20 ∨
      cl15.length < 14) :
    generate_signal { mkStrategy sym with position := pos } cl15 h15 l15 cl1h ts =
      .ok none := by
  have e1 := calculate_sma_eq cl15 9 (by norm_num)
  have e2 := calculate_sma_eq cl15 21 (by norm_num)
  have e3 := calculate_sma_eq cl1h 20 (by norm_num)
  by_cases h14 : cl15.length < 14
  · exact generate_signal_none_of_indicator_none _ _ _ _ _ _ _ _ _ _
      e1 e2 e3 (calculate_atr_none h15 l15 cl15 _ h14)
      (Or.inr (Or.inr (Or.inr rfl)))
  · obtain ⟨trs, htrs, hlen⟩ := trList_ok h15 l15 cl15 hh hl
    have e4 := calculate_atr_some h15 l15 cl15 14 trs (by norm_num) (by omega) htrs
    rcases hshort with h | h | h | h
    · exact generate_signal_none_of_indicator_none _ _ _ _ _ _ _ _ _ _
        e1 e2 e3 e4 (Or.inl (by rw [if_pos h]))
    · exact generate_signal_none_of_indicator_none _ _ _ _ _ _ _ _ _ _
        e1 e2 e3 e4 (Or.inr (Or.inl (by rw [if_pos h])))
    · exact generate_signal_none_of_indicator_none _ _ _ _ _ _ _ _ _ _
        e1 e2 e3 e4 (Or.inr (Or.inr (Or.inl (by rw [if_pos h]))))
    · omega

/-- **C6** witness: two closes (shorter than every period), matched highs
and lows, and an empty hourly series give no signal and no exception. -/
theorem c6_short_series_no_signal_witness :
    generate_signal { mkStrategy "BTCUSDT" with position := none }
      [1, 2] [2, 3] [0, 1] [] 0 = .ok none :=
  c6_short_series_no_signal "BTCUSDT" none [1, 2] [2, 3] [0, 1] [] 0
    (by decide) (by decide) (Or.inl (by decide))

/-! ### C8 — with an open position only exit signals are produced -/

theorem exitLogic_spec (s : Strategy) (f g ts : ℚ) (sig : Signal)
    (h : exitLogic s f g ts = some sig) :
    sig.confidence = 8/10 ∧
    ∀ p, s.position = some p → sig.direction = p.direction.opposite := by
  cases hp : s.position with
  | none =>
    simp only [exitLogic, hp] at h
    exact Option.noConfusion h
  | some p =>
    simp only [exitLogic, hp] at h
    by_cases h1 : p.direction = TradeDirection.LONG ∧ f < g
    · rw [if_pos h1] at h
      injection h with h2
      subst h2
      refine ⟨rfl, fun q hq => ?_⟩
      injection hq with hq
      subst hq
      rw [h1.1]
      rfl
    · rw [if_neg h1] at h
      by_cases h2 : p.direction = TradeDirection.SHORT ∧ f > g
      · rw [if_pos h2] at h
        injection h with h3
        subst h3
        refine ⟨rfl, fun q hq => ?_⟩
        injection hq with hq
        subst hq
        rw [h2.1]
        rfl
      · rw [if_neg h2] at h
        exact Option.noConfusion h

theorem signalCore_spec (s : Strategy) (f g m cp ts : ℚ) (sig : Signal)
    (h : signalCore s f g m cp ts = some sig) :
    (∀ p, s.position = some p →
      sig.confidence = 8/10 ∧ sig.direction = p.direction.opposite) ∧
    (s.position = none → sig.confidence = 7/10) := by
  cases hp : s.position with
  | none =>
    refine ⟨fun p hp2 => Option.noConfusion hp2, fun _ => ?_⟩
    simp only [signalCore, exitLogic, hp] at h
    split at h
    · injection h with h2
      subst h2
      rfl
    · split at h
      · injection h with h2
        subst h2
        rfl
      · exact Option.noConfusion h
  | some p =>
    refine ⟨fun q hq => ?_, fun hn => Option.noConfusion hn⟩
    injection hq with hq
    subst hq
    simp only [signalCore, hp] at h
    have h3 : exitLogic s f g ts = some sig := by
      split at h
      · exact h
      · split at h
        · exact h
        · exact h
    have he := exitLogic_spec s f g ts sig h3
    exact ⟨he.1, he.2 p hp⟩

/-- **C8**: any signal produced while a position is open is an exit signal —
confidence 0.8 and direction opposite to the open position (so the state
machine never jumps LONG to SHORT in one call) — while any signal produced
with no open position is an entry signal of confidence 0.7. -/
theorem c8_open_position_only_exit_signals (s : Strategy)
    (cl15 h15 l15 cl1h : List ℚ) (ts : ℚ) (sig : Signal)
    (h : generate_signal s cl15 h15 l15 cl1h ts = .ok (some sig)) :
    (∀ p, s.position = some p →
      sig.confidence = 8/10 ∧ sig.direction = p.direction.opposite) ∧
    (s.position = none → sig.confidence = 7/10) := by
  unfold generate_signal at h
  repeat' split at h
  all_goals simp at h
  exact signalCore_spec _ _ _ _ _ _ _ h

/-- **C8** witness: from `openLong` (an open LONG position) on series where
fast MA < slow MA, the produced signal has confidence 0.8 and direction
SHORT — the opposite of LONG. -/
theorem c8_open_position_only_exit_signals_witness :
    exExitSignal.confidence = 8/10 ∧
    exExitSignal.direction = TradeDirection.LONG.opposite :=
  (c8_open_position_only_exit_signals openLong exClo15 exHi15 exLo15 exClo1h 99
      exExitSignal (by with_unfolding_all rfl)).1
    ⟨"BTCUSDT", TradeDirection.LONG, 100, 0, 1, 90, 115⟩ rfl

/-! ### C10 — zero-valued indicators are treated as missing -/

/-- **C10**: when every indicator is available (all four computations return
a value) but any of them is exactly 0 — e.g. the ATR of a perfectly flat
series — `generate_signal` returns no signal, because availability is tested
by Python truthiness (`all([...])`), not by an is-None check. -/
theorem c10_zero_indicator_no_signal (s : Strategy)
    (cl15 h15 l15 cl1h : List ℚ) (ts f sl hm a : ℚ)
    (hf : calculate_sma cl15 s.fast_ma_period = .ok (some f))
    (hs : calculate_sma cl15 s.slow_ma_period = .ok (some sl))
    (hh : calculate_sma cl1h s.hourly_ma_period = .ok (some hm))
    (ha : calculate_atr h15 l15 cl15 s.atr_period = .ok (some a))
    (hz : f = 0 ∨ sl = 0 ∨ hm = 0 ∨ a = 0) :
    generate_signal s cl15 h15 l15 cl1h ts = .ok none := by
  simp only [generate_signal, hf, hs, hh, ha]
  rw [if_pos hz]

/-- **C10** witness: 21 flat bars (high = low = close = 5) give fast MA =
slow MA = hourly MA = 5 but ATR = 0, and no signal is generated despite
sufficient history everywhere. -/
theorem c10_zero_indicator_no_signal_witness :
    generate_signal (mkStrategy "BTCUSDT") (List.replicate 21 5)
      (List.replicate 21 5) (List.replicate 21 5) (List.replicate 20 5) 0 =
      .ok none :=
  c10_zero_indicator_no_signal (mkStrategy "BTCUSDT") (List.replicate 21 5)
    (List.replicate 21 5) (List.replicate 21 5) (List.replicate 20 5) 0 5 5 5 0
    (by with_unfolding_all rfl) (by with_unfolding_all rfl)
    (by with_unfolding_all rfl) (by with_unfolding_all rfl)
    (Or.inr (Or.inr (Or.inr rfl)))

namespace Matching

/-! ### Helper lemmas for the matcher -/

theorem pyAbs_eq_abs (a : ℚ) : pyAbs a = |a| := by
  unfold pyAbs
  split_ifs with h
  · exact (abs_of_neg h).symm
  · exact (abs_of_nonneg (not_lt.mp h)).symm

theorem enumL_ge (l : List TradeRec) :
    ∀ (m j : ℕ) (c : TradeRec), (j, c) ∈ enumL m l → m ≤ j := by
  induction l with
  | nil => intro m j c h; simp [enumL] at h
  | cons x xs ih =>
    intro m j c h
    simp only [enumL, List.mem_cons] at h
    rcases h with h | h
    · injection h with h1 h2
      omega
    · have := ih (m + 1) j c h
      omega

theorem enumL_functional (l : List TradeRec) :
    ∀ (m j : ℕ) (b b' : TradeRec),
      (j, b) ∈ enumL m l → (j, b') ∈ enumL m l → b = b' := by
  induction l with
  | nil => intro m j b b' h; simp [enumL] at h
  | cons x xs ih =>
    intro m j b b' h h'
    simp only [enumL, List.mem_cons] at h h'
    rcases h with h | h <;> rcases h' with h' | h'
    · injection h with h1 h2
      injection h' with h3 h4
      rw [h2, h4]
    · injection h with h1 h2
      have := enumL_ge xs (m + 1) j b' h'
      omega
    · injection h' with h1 h2
      have := enumL_ge xs (m + 1) j b h
      omega
    · exact ih (m + 1) j b b' h h'

/-- If the inner loop reports a best index `i`, then either the accumulator
already carried `i`, or `i` is an unconsumed backtest row with a parsable
timestamp from the candidate pool. -/
theorem innerLoop_some_src (ttol ptol : ℚ) (lt : TradeRec) (t : ℚ)
    (consumed : Finset ℕ) :
    ∀ (cands : List (Nat × TradeRec)) (acc : Option (Nat × ℚ)) (i : ℕ),
      innerLoop ttol ptol lt t consumed cands acc = .ok (some i) →
      (∃ s, acc = some (i, s)) ∨
      (i ∉ consumed ∧ ∃ b, (i, b) ∈ cands ∧ b.dt ≠ none) := by
  intro cands
  induction cands with
  | nil =>
    intro acc i h
    simp only [innerLoop] at h
    injection h with h2
    cases acc with
    | none => cases h2
    | some pr =>
      simp only [Option.map] at h2
      injection h2 with h3
      exact Or.inl ⟨pr.2, by rw [← h3]⟩
  | cons p rest ih =>
    obtain ⟨j, b⟩ := p
    intro acc i h
    simp only [innerLoop] at h
    by_cases hc : j ∈ consumed
    · rw [if_pos hc] at h
      rcases ih acc i h with h' | ⟨hni, b', hb', hdt'⟩
      · exact Or.inl h'
      · exact Or.inr ⟨hni, b', List.mem_cons_of_mem _ hb', hdt'⟩
    · rw [if_neg hc] at h
      cases hdt : b.dt with
      | none =>
        simp only [hdt] at h
        rcases ih acc i h with h' | ⟨hni, b', hb', hdt'⟩
        · exact Or.inl h'
        · exact Or.inr ⟨hni, b', List.mem_cons_of_mem _ hb', hdt'⟩
      | some u =>
        simp only [hdt] at h
        by_cases ht : pyAbs (t - u) ≤ ttol
        · rw [if_pos ht] at h
          cases hdiv : pyDiv (pyAbs (lt.entry_price - b.entry_price))
              ((lt.entry_price + b.entry_price) / 2) with
          | error e =>
            simp only [hdiv] at h
            exact Except.noConfusion h
          | ok pct =>
            simp only [hdiv] at h
            by_cases hpct : pct ≤ ptol
            · rw [if_pos hpct] at h
              cases acc with
              | none =>
                simp only [accUpd] at h
                rcases ih _ i h with ⟨s, hs⟩ | ⟨hni, b', hb', hdt'⟩
                · injection hs with hs2
                  have hj : j = i := congrArg Prod.fst hs2
                  subst hj
                  exact Or.inr ⟨hc, b, List.mem_cons_self _ _, by rw [hdt]; simp⟩
                · exact Or.inr ⟨hni, b', List.mem_cons_of_mem _ hb', hdt'⟩
              | some pr =>
                obtain ⟨bi, ms⟩ := pr
                simp only [accUpd] at h
                by_cases hsc : pyAbs (t - u) + pct * 10000 < ms
                · rw [if_pos hsc] at h
                  rcases ih _ i h with ⟨s, hs⟩ | ⟨hni, b', hb', hdt'⟩
                  · injection hs with hs2
                    have hj : j = i := congrArg Prod.fst hs2
                    subst hj
                    exact Or.inr ⟨hc, b, List.mem_cons_self _ _, by rw [hdt]; simp⟩
                  · exact Or.inr ⟨hni, b', List.mem_cons_of_mem _ hb', hdt'⟩
                · rw [if_neg hsc] at h
                  rcases ih _ i h with ⟨s, hs⟩ | ⟨hni, b', hb', hdt'⟩
                  · exact Or.inl ⟨s, hs⟩
                  · exact Or.inr ⟨hni, b', List.mem_cons_of_mem _ hb', hdt'⟩
            · rw [if_neg hpct] at h
              rcases ih acc i h with h' | ⟨hni, b', hb', hdt'⟩
              · exact Or.inl h'
              · exact Or.inr ⟨hni, b', List.mem_cons_of_mem _ hb', hdt'⟩
        · rw [if_neg ht] at h
          rcases ih acc i h with h' | ⟨hni, b', hb', hdt'⟩
          · exact Or.inl h'
          · exact Or.inr ⟨hni, b', List.mem_cons_of_mem _ hb', hdt'⟩

/-- Full characterisation of the inner loop (under positive prices, so the
relative-price division never raises): it always succeeds, and the result is
the accumulator when no filtered row beats it, or the first row among the
tolerance survivors attaining the minimal composite score. -/
theorem innerLoop_spec (ttol ptol : ℚ) (lt : TradeRec) (t : ℚ)
    (consumed : Finset ℕ) (hlt : 0 < lt.entry_price) :
    ∀ (cands : List (Nat × TradeRec)), (∀ p ∈ cands, 0 < p.2.entry_price) →
    ∀ acc : Option (Nat × ℚ),
    ∃ r, innerLoop ttol ptol lt t consumed cands acc = .ok r ∧
      ((acc = none ∧ r = none ∧
          cands.filter (innerOk ttol ptol lt t consumed) = []) ∨
       (∃ i s, acc = some (i, s) ∧ r = some i ∧
          ∀ q ∈ cands.filter (innerOk ttol ptol lt t consumed),
            s ≤ pairScore lt t q.2) ∨
       (∃ i b, r = some i ∧
          (i, b) ∈ cands.filter (innerOk ttol ptol lt t consumed) ∧
          (∀ q ∈ cands.filter (innerOk ttol ptol lt t consumed),
            pairScore lt t b ≤ pairScore lt t q.2) ∧
          ∀ i0 s0, acc = some (i0, s0) → pairScore lt t b < s0)) := by
  intro cands
  induction cands with
  | nil =>
    intro _ acc
    cases acc with
    | none => exact ⟨none, rfl, Or.inl ⟨rfl, rfl, rfl⟩⟩
    | some pr =>
      exact ⟨some pr.1, rfl, Or.inr (Or.inl ⟨pr.1, pr.2, by simp, rfl, by simp⟩)⟩
  | cons p rest ih =>
    obtain ⟨j, b⟩ := p
    intro hpos acc
    have hrest : ∀ q ∈ rest, 0 < q.2.entry_price :=
      fun q hq => hpos q (List.mem_cons_of_mem _ hq)
    have hbpos : 0 < b.entry_price := hpos (j, b) (List.mem_cons_self _ _)
    by_cases hc : j ∈ consumed
    · have hfil : innerOk ttol ptol lt t consumed (j, b) = false := by
        simp [innerOk, hc]
      obtain ⟨r, hr, hP⟩ := ih hrest acc
      refine ⟨r, ?_, ?_⟩
      · simp only [innerLoop, if_pos hc]
        exact hr
      · rwa [List.filter_cons_of_neg (by simp [hfil])]
    · cases hdt : b.dt with
      | none =>
        have hfil : innerOk ttol ptol lt t consumed (j, b) = false := by
          simp [innerOk, hdt]
        obtain ⟨r, hr, hP⟩ := ih hrest acc
        refine ⟨r, ?_, ?_⟩
        · simp only [innerLoop, if_neg hc, hdt]
          exact hr
        · rwa [List.filter_cons_of_neg (by simp [hfil])]
      | some u =>
        have havg : (0 : ℚ) < (lt.entry_price + b.entry_price) / 2 := by positivity
        have hdiv : pyDiv (pyAbs (lt.entry_price - b.entry_price))
            ((lt.entry_price + b.entry_price) / 2) =
            .ok (pyAbs (lt.entry_price - b.entry_price) /
              ((lt.entry_price + b.entry_price) / 2)) :=
          pyDiv_ok _ _ (ne_of_gt havg)
        by_cases ht : pyAbs (t - u) ≤ ttol
        · by_cases hpct : pyAbs (lt.entry_price - b.entry_price) /
              ((lt.entry_price + b.entry_price) / 2) ≤ ptol
          · -- (j, b) passes every check
            have hfil : innerOk ttol ptol lt t consumed (j, b) = true := by
              rw [pyAbs_eq_abs] at ht hpct
              simp [innerOk, hc, hdt, ht, hpct]
            have hsp : pyAbs (t - u) +
                pyAbs (lt.entry_price - b.entry_price) /
                  ((lt.entry_price + b.entry_price) / 2) * 10000 =
                pairScore lt t b := by
              simp [pairScore, hdt, pyAbs_eq_abs]
            have hfcons : (((j, b) :: rest).filter
                (innerOk ttol ptol lt t consumed)) =
                (j, b) :: rest.filter (innerOk ttol ptol lt t consumed) :=
              List.filter_cons_of_pos (by simp [hfil])
            cases acc with
            | none =>
              obtain ⟨r, hr, hP⟩ := ih hrest
                (some (j, pyAbs (t - u) +
                  pyAbs (lt.entry_price - b.entry_price) /
                    ((lt.entry_price + b.entry_price) / 2) * 10000))
              refine ⟨r, ?_, ?_⟩
              · simp only [innerLoop, accUpd, if_neg hc, hdt, if_pos ht, hdiv, if_pos hpct]
                exact hr
              · rw [hfcons]
                rcases hP with ⟨hacc, _, _⟩ | ⟨i, s, hacc, hri, hmin⟩ |
                    ⟨i, b', hri, hmem, hmin, hlt2⟩
                · cases hacc
                · injection hacc with hacc2
                  have hji : j = i := congrArg Prod.fst hacc2
                  have hsi : pyAbs (t - u) +
                      pyAbs (lt.entry_price - b.entry_price) /
                        ((lt.entry_price + b.entry_price) / 2) * 10000 = s :=
                    congrArg Prod.snd hacc2
                  subst hji
                  refine Or.inr (Or.inr ⟨j, b, hri, List.mem_cons_self _ _,
                    ?_, fun i0 s0 hn => by cases hn⟩)
                  intro q hq
                  rcases List.mem_cons.mp hq with hq1 | hq2
                  · rw [hq1]
                  · calc pairScore lt t b = s := by rw [← hsp, hsi]
                      _ ≤ pairScore lt t q.2 := hmin q hq2
                · refine Or.inr (Or.inr ⟨i, b', hri,
                    List.mem_cons_of_mem _ hmem, ?_, fun i0 s0 hn => by cases hn⟩)
                  intro q hq
                  rcases List.mem_cons.mp hq with hq1 | hq2
                  · rw [hq1]
                    have := hlt2 j (pyAbs (t - u) +
                      pyAbs (lt.entry_price - b.entry_price) /
                        ((lt.entry_price + b.entry_price) / 2) * 10000) rfl
                    rw [hsp] at this
                    exact le_of_lt this
                  · exact hmin q hq2
            | some pr =>
              obtain ⟨bi, ms⟩ := pr
              by_cases hsc : pyAbs (t - u) +
                  pyAbs (lt.entry_price - b.entry_price) /
                    ((lt.entry_price + b.entry_price) / 2) * 10000 < ms
              · obtain ⟨r, hr, hP⟩ := ih hrest
                  (some (j, pyAbs (t - u) +
                    pyAbs (lt.entry_price - b.entry_price) /
                      ((lt.entry_price + b.entry_price) / 2) * 10000))
                refine ⟨r, ?_, ?_⟩
                · simp only [innerLoop, accUpd, if_neg hc, hdt, if_pos ht, hdiv,
                    if_pos hpct, if_pos hsc]
                  exact hr
                · rw [hfcons]
                  rcases hP with ⟨hacc, _, _⟩ | ⟨i, s, hacc, hri, hmin⟩ |
                      ⟨i, b', hri, hmem, hmin, hlt2⟩
                  · cases hacc
                  · injection hacc with hacc2
                    have hji : j = i := congrArg Prod.fst hacc2
                    have hsi : pyAbs (t - u) +
                        pyAbs (lt.entry_price - b.entry_price) /
                          ((lt.entry_price + b.entry_price) / 2) * 10000 = s :=
                      congrArg Prod.snd hacc2
                    subst hji
                    refine Or.inr (Or.inr ⟨j, b, hri, List.mem_cons_self _ _, ?_,
                      fun i0 s0 hn => ?_⟩)
                    · intro q hq
                      rcases List.mem_cons.mp hq with hq1 | hq2
                      · rw [hq1]
                      · calc pairScore lt t b = s := by rw [← hsp, hsi]
                          _ ≤ pairScore lt t q.2 := hmin q hq2
                    · injection hn with hn2
                      have hms : ms = s0 := congrArg Prod.snd hn2
                      rw [← hsp, ← hms] at *
                      exact hsc
                  · refine Or.inr (Or.inr ⟨i, b', hri,
                      List.mem_cons_of_mem _ hmem, ?_, fun i0 s0 hn => ?_⟩)
                    · intro q hq
                      rcases List.mem_cons.mp hq with hq1 | hq2
                      · rw [hq1]
                        have := hlt2 j (pyAbs (t - u) +
                          pyAbs (lt.entry_price - b.entry_price) /
                            ((lt.entry_price + b.entry_price) / 2) * 10000) rfl
                        rw [hsp] at this
                        exact le_of_lt this
                      · exact hmin q hq2
                    · injection hn with hn2
                      have hms : ms = s0 := congrArg Prod.snd hn2
                      have h1 := hlt2 j (pyAbs (t - u) +
                        pyAbs (lt.entry_price - b.entry_price) /
                          ((lt.entry_price + b.entry_price) / 2) * 10000) rfl
                      rw [hsp] at h1
                      rw [hsp] at hsc
                      calc pairScore lt t b' < pairScore lt t b := h1
                        _ < ms := hsc
                        _ = s0 := hms
              · obtain ⟨r, hr, hP⟩ := ih hrest (some (bi, ms))
                refine ⟨r, ?_, ?_⟩
                · simp only [innerLoop, accUpd, if_neg hc, hdt, if_pos ht, hdiv,
                    if_pos hpct, if_neg hsc]
                  exact hr
                · rw [hfcons]
                  rcases hP with ⟨hacc, _, _⟩ | ⟨i, s, hacc, hri, hmin⟩ |
                      ⟨i, b', hri, hmem, hmin, hlt2⟩
                  · cases hacc
                  · injection hacc with hacc2
                    have hbi2 : bi = i := congrArg Prod.fst hacc2
                    have hms2 : ms = s := congrArg Prod.snd hacc2
                    subst hbi2
                    subst hms2
                    refine Or.inr (Or.inl ⟨bi, ms, rfl, hri, ?_⟩)
                    intro q hq
                    rcases List.mem_cons.mp hq with hq1 | hq2
                    · rw [hq1, ← hsp]
                      exact le_of_not_lt hsc
                    · exact hmin q hq2
                  · refine Or.inr (Or.inr ⟨i, b', hri,
                      List.mem_cons_of_mem _ hmem, ?_, fun i0 s0 hn => ?_⟩)
                    · intro q hq
                      rcases List.mem_cons.mp hq with hq1 | hq2
                      · rw [hq1]
                        have hbms := hlt2 bi ms rfl
                        refine le_of_lt ?_
                        calc pairScore lt t b' < ms := hbms
                          _ ≤ pairScore lt t b := by
                            rw [← hsp]
                            exact le_of_not_lt hsc
                      · exact hmin q hq2
                    · injection hn with hn2
                      have hms : ms = s0 := congrArg Prod.snd hn2
                      rw [← hms]
                      exact hlt2 bi ms rfl
          · have hfil : innerOk ttol ptol lt t consumed (j, b) = false := by
              rw [pyAbs_eq_abs] at hpct
              simp [innerOk, hc, hdt, hpct]
            obtain ⟨r, hr, hP⟩ := ih hrest acc
            refine ⟨r, ?_, ?_⟩
            · simp only [innerLoop, if_neg hc, hdt, if_pos ht, hdiv, if_neg hpct]
              exact hr
            · rwa [List.filter_cons_of_neg (by simp [hfil])]
        · have hfil : innerOk ttol ptol lt t consumed (j, b) = false := by
            rw [pyAbs_eq_abs] at ht
            simp [innerOk, hc, hdt, ht]
          obtain ⟨r, hr, hP⟩ := ih hrest acc
          refine ⟨r, ?_, ?_⟩
          · simp only [innerLoop, if_neg hc, hdt, if_neg ht]
            exact hr
          · rwa [List.filter_cons_of_neg (by simp [hfil])]

theorem innerOk_dt_ne_none (ttol ptol : ℚ) (lt : TradeRec) (t : ℚ)
    (consumed : Finset ℕ) (p : Nat × TradeRec)
    (h : innerOk ttol ptol lt t consumed p = true) : p.2.dt ≠ none := by
  cases hdt : p.2.dt with
  | none => simp [innerOk, hdt] at h
  | some u => simp

theorem enumL_mem_snd (l : List TradeRec) :
    ∀ (n : ℕ) (p : Nat × TradeRec), p ∈ enumL n l → p.2 ∈ l := by
  induction l with
  | nil => intro n p h; simp [enumL] at h
  | cons x xs ih =>
    intro n p h
    simp only [enumL, List.mem_cons] at h
    rcases h with h | h
    · rw [h]
      exact List.mem_cons_self _ _
    · exact List.mem_cons_of_mem _ (ih (n + 1) p h)

/-! ### C4 — greedy best-match selection per candidate -/

/-- **C4**: processing one candidate record `lt` (with parsable entry time
`t`) against the reference pool: the step never fails (given positive
prices); if the tolerance survivors are empty the candidate is recorded
unmatched, otherwise it is paired with a survivor of minimal composite
score, which is marked consumed. -/
theorem c4_greedy_best_match (ttol ptol : ℚ) (btE : List (Nat × TradeRec))
    (st : MState) (li : ℕ) (lt : TradeRec) (t : ℚ)
    (hdt : lt.dt = some t) (hlt : 0 < lt.entry_price)
    (hb : ∀ p ∈ btE, 0 < p.2.entry_price) :
    ∃ st2, step ttol ptol btE st li lt = .ok st2 ∧
      ((survivors ttol ptol lt t st.consumed btE = [] ∧
        st2 = { st with unmatchedLive := st.unmatchedLive + 1 }) ∨
       (∃ i b, (i, b) ∈ survivors ttol ptol lt t st.consumed btE ∧
        (∀ q ∈ survivors ttol ptol lt t st.consumed btE,
          pairScore lt t b ≤ pairScore lt t q.2) ∧
        st2 = { st with
                 matched := st.matched + 1
                 consumed := insert i st.consumed
                 pairs := st.pairs ++ [(li, i)] })) := by
  have hcands : ∀ p ∈ btE.filter
      (fun p => p.2.symbol == lt.symbol && p.2.direction == lt.direction),
      0 < p.2.entry_price :=
    fun p hp => hb p (List.mem_of_mem_filter hp)
  obtain ⟨r, hr, hP⟩ := innerLoop_spec ttol ptol lt t st.consumed hlt _ hcands none
  rcases hP with ⟨_, hrn, hfil⟩ | ⟨i, s, hacc, _, _⟩ | ⟨i, b, hri, hmem, hmin, _⟩
  · subst hrn
    refine ⟨{ st with unmatchedLive := st.unmatchedLive + 1 }, ?_,
      Or.inl ⟨hfil, rfl⟩⟩
    simp only [step, hdt, hr]
  · exact Option.noConfusion hacc
  · subst hri
    refine ⟨{ st with
                matched := st.matched + 1
                consumed := insert i st.consumed
                pairs := st.pairs ++ [(li, i)] }, ?_,
      Or.inr ⟨i, b, hmem, hmin, rfl⟩⟩
    simp only [step, hdt, hr]

/-- **C4** witness: the step theorem at a concrete candidate within both
tolerances of the single reference record. -/
theorem c4_greedy_best_match_witness :
    ∃ st2, step 300 (2/100) (enumL 0 [exBt]) initState 0 exLive = .ok st2 ∧
      ((survivors 300 (2/100) exLive 120 initState.consumed (enumL 0 [exBt]) = [] ∧
        st2 = { initState with unmatchedLive := initState.unmatchedLive + 1 }) ∨
       (∃ i b, (i, b) ∈ survivors 300 (2/100) exLive 120 initState.consumed
          (enumL 0 [exBt]) ∧
        (∀ q ∈ survivors 300 (2/100) exLive 120 initState.consumed
          (enumL 0 [exBt]),
          pairScore exLive 120 b ≤ pairScore exLive 120 q.2) ∧
        st2 = { initState with
                 matched := initState.matched + 1
                 consumed := insert i initState.consumed
                 pairs := initState.pairs ++ [(0, i)] })) :=
  c4_greedy_best_match 300 (2/100) (enumL 0 [exBt]) initState 0 exLive 120 rfl
    (by decide) (by decide)

/-! ### C5 — the pairing is one-to-one -/

theorem runLive_nodup (ttol ptol : ℚ) (btE : List (Nat × TradeRec)) :
    ∀ (live : List TradeRec) (k : ℕ) (st st2 : MState),
      runLive ttol ptol btE k st live = .ok st2 →
      (∀ pr ∈ st.pairs, pr.2 ∈ st.consumed) →
      (st.pairs.map Prod.snd).Nodup →
      (∀ pr ∈ st.pairs, pr.1 < k) →
      (st.pairs.map Prod.fst).Nodup →
      (∀ pr ∈ st2.pairs, pr.2 ∈ st2.consumed) ∧
      (st2.pairs.map Prod.snd).Nodup ∧
      (∀ pr ∈ st2.pairs, pr.1 < k + live.length) ∧
      (st2.pairs.map Prod.fst).Nodup := by
  intro live
  induction live with
  | nil =>
    intro k st st2 h i1 i2 i3 i4
    simp only [runLive] at h
    injection h with h2
    subst h2
    exact ⟨i1, i2, by simpa using i3, i4⟩
  | cons lt rest ih =>
    intro k st st2 h i1 i2 i3 i4
    simp only [runLive] at h
    cases hstep : step ttol ptol btE st k lt with
    | error e =>
      simp only [hstep] at h
      exact Except.noConfusion h
    | ok st1 =>
      simp only [hstep] at h
      unfold step at hstep
      cases hdt : lt.dt with
      | none =>
        simp only [hdt] at hstep
        injection hstep with h2
        subst h2
        obtain ⟨a, b, c, d⟩ := ih (k + 1) st st2 h i1 i2
          (fun pr hpr => Nat.lt_succ_of_lt (i3 pr hpr)) i4
        exact ⟨a, b, fun pr hpr => by
          have := c pr hpr
          simp only [List.length_cons]
          omega, d⟩
      | some t =>
        simp only [hdt] at hstep
        cases hil : innerLoop ttol ptol lt t st.consumed
            (btE.filter fun p =>
              p.2.symbol == lt.symbol && p.2.direction == lt.direction) none with
        | error e =>
          simp only [hil] at hstep
          exact Except.noConfusion hstep
        | ok res =>
          simp only [hil] at hstep
          cases res with
          | none =>
            injection hstep with h2
            subst h2
            obtain ⟨a, b, c, d⟩ := ih (k + 1) _ st2 h i1 i2
              (fun pr hpr => Nat.lt_succ_of_lt (i3 pr hpr)) i4
            exact ⟨a, b, fun pr hpr => by
              have := c pr hpr
              simp only [List.length_cons]
              omega, d⟩
          | some i =>
            injection hstep with h2
            subst h2
            have hsrc := innerLoop_some_src ttol ptol lt t st.consumed _ none i hil
            rcases hsrc with ⟨s, hs⟩ | ⟨hni, _⟩
            · exact Option.noConfusion hs
            · have j1 : ∀ pr ∈ st.pairs ++ [(k, i)], pr.2 ∈ insert i st.consumed := by
                intro pr hpr
                rcases List.mem_append.mp hpr with hp | hp
                · exact Finset.mem_insert_of_mem (i1 pr hp)
                · have hpe : pr = (k, i) := by simpa using hp
                  rw [hpe]
                  exact Finset.mem_insert_self _ _
              have hnotin : i ∉ st.pairs.map Prod.snd := by
                intro hmem2
                obtain ⟨pr, hpr, hpr2⟩ := List.mem_map.mp hmem2
                exact hni (hpr2 ▸ i1 pr hpr)
              have j2 : ((st.pairs ++ [(k, i)]).map Prod.snd).Nodup := by
                rw [List.map_append]
                refine List.Nodup.append i2 (List.nodup_singleton _) ?_
                intro a ha hb2
                have : a = i := by simpa using hb2
                exact hnotin (this ▸ ha)
              have j3 : ∀ pr ∈ st.pairs ++ [(k, i)], pr.1 < k + 1 := by
                intro pr hpr
                rcases List.mem_append.mp hpr with hp | hp
                · exact Nat.lt_succ_of_lt (i3 pr hp)
                · have hpe : pr = (k, i) := by simpa using hp
                  rw [hpe]
                  exact Nat.lt_succ_self k
              have j4 : ((st.pairs ++ [(k, i)]).map Prod.fst).Nodup := by
                rw [List.map_append]
                refine List.Nodup.append i4 (List.nodup_singleton _) ?_
                intro a ha hb2
                have hak : a = k := by simpa using hb2
                obtain ⟨pr, hpr, hpr2⟩ := List.mem_map.mp ha
                have := i3 pr hpr
                omega
              obtain ⟨a, b, c, d⟩ := ih (k + 1) _ st2 h j1 j2 j3 j4
              exact ⟨a, b, fun pr hpr => by
                have := c pr hpr
                simp only [List.length_cons]
                omega, d⟩

/-- **C5**: the matcher's pairing is one-to-one — in any successful run, no
backtest (reference) index and no live (candidate) index appears in more
than one matched pair; once a reference record is consumed it is never
paired again. -/
theorem c5_matching_one_to_one (ttol ptol : ℚ) (bt live : List TradeRec)
    (res : CompareResult) (h : compare ttol ptol bt live = .ok res) :
    (res.pairs.map Prod.snd).Nodup ∧ (res.pairs.map Prod.fst).Nodup := by
  unfold compare at h
  cases hrl : runLive ttol ptol (enumL 0 bt) 0 initState live with
  | error e =>
    simp only [hrl] at h
    exact Except.noConfusion h
  | ok st =>
    simp only [hrl] at h
    injection h with h2
    obtain ⟨_, b, _, d⟩ := runLive_nodup ttol ptol (enumL 0 bt) live 0 initState
      st hrl (by simp [initState]) (by simp [initState]) (by simp [initState])
      (by simp [initState])
    rw [← h2]
    exact ⟨b, d⟩

/-- **C5** witness: a concrete run in which the single candidate matches the
single reference record, giving the pair list `[(0, 0)]`. -/
theorem c5_matching_one_to_one_witness :
    (([((0 : ℕ), (0 : ℕ))].map Prod.snd).Nodup ∧
      ([((0 : ℕ), (0 : ℕ))].map Prod.fst).Nodup) :=
  c5_matching_one_to_one 300 (2/100) [exBt] [exLive]
    ⟨1, 0, 0, [(0, 0)], some 100⟩ (by with_unfolding_all rfl)

/-! ### C3 — unparsable records -/

theorem runLive_spec (ttol ptol : ℚ) (btE : List (Nat × TradeRec))
    (hb : ∀ p ∈ btE, 0 < p.2.entry_price) :
    ∀ (live : List TradeRec) (k : ℕ) (st : MState),
      (∀ r ∈ live, 0 < r.entry_price) →
      ∃ st2, runLive ttol ptol btE k st live = .ok st2 ∧
        st2.matched + st2.unmatchedLive =
          st.matched + st.unmatchedLive + parsableCount live ∧
        ∀ pr ∈ st2.pairs, pr ∈ st.pairs ∨
          ∃ b, (pr.2, b) ∈ btE ∧ b.dt ≠ none := by
  intro live
  induction live with
  | nil =>
    intro k st _
    exact ⟨st, rfl, by simp [parsableCount], fun pr hpr => Or.inl hpr⟩
  | cons lt rest ih =>
    intro k st hpos
    have hrest : ∀ r ∈ rest, 0 < r.entry_price :=
      fun r hr => hpos r (List.mem_cons_of_mem _ hr)
    cases hdt : lt.dt with
    | none =>
      obtain ⟨st2, h2, hcount, hprov⟩ := ih (k + 1) st hrest
      refine ⟨st2, ?_, ?_, hprov⟩
      · simp only [runLive, step, hdt]
        exact h2
      · have hpc : parsableCount (lt :: rest) = parsableCount rest := by
          simp [parsableCount, hdt]
        rw [hpc]
        exact hcount
    | some t =>
      have hlt : 0 < lt.entry_price := hpos lt (List.mem_cons_self _ _)
      have hcands : ∀ p ∈ btE.filter
          (fun p => p.2.symbol == lt.symbol && p.2.direction == lt.direction),
          0 < p.2.entry_price :=
        fun p hp => hb p (List.mem_of_mem_filter hp)
      obtain ⟨r, hr, hP⟩ := innerLoop_spec ttol ptol lt t st.consumed hlt _ hcands none
      have hpc : parsableCount (lt :: rest) = parsableCount rest + 1 := by
        simp [parsableCount, hdt]
      cases r with
      | none =>
        obtain ⟨st2, h2, hcount, hprov⟩ :=
          ih (k + 1) { st with unmatchedLive := st.unmatchedLive + 1 } hrest
        refine ⟨st2, ?_, ?_, fun pr hpr => hprov pr hpr⟩
        · simp only [runLive, step, hdt, hr]
          exact h2
        · rw [hpc]
          simp only [] at hcount
          omega
      | some i =>
        rcases hP with ⟨_, hrn, _⟩ | ⟨i0, s, hacc, _, _⟩ | ⟨i0, b, hri, hmem, _, _⟩
        · exact Option.noConfusion hrn
        · exact Option.noConfusion hacc
        · injection hri with hii
          subst hii
          obtain ⟨st2, h2, hcount, hprov⟩ :=
            ih (k + 1) { st with
                          matched := st.matched + 1
                          consumed := insert i st.consumed
                          pairs := st.pairs ++ [(k, i)] } hrest
          refine ⟨st2, ?_, ?_, ?_⟩
          · simp only [runLive, step, hdt, hr]
            exact h2
          · rw [hpc]
            simp only [] at hcount
            omega
          · intro pr hpr
            rcases hprov pr hpr with hp | hp
            · rcases List.mem_append.mp hp with hp2 | hp2
              · exact Or.inl hp2
              · have hpe : pr = (k, i) := by simpa using hp2
                have hmem2 := List.mem_of_mem_filter hmem
                have hmem3 := List.mem_of_mem_filter hmem2
                have hok := (List.mem_filter.mp hmem).2
                refine Or.inr ⟨b, ?_, innerOk_dt_ne_none ttol ptol lt t
                  st.consumed (i, b) hok⟩
                rw [hpe]
                exact hmem3
            · exact Or.inr hp

/-- **C3** (amended): under positive prices the matching pass never aborts;
a candidate (live) record with an unparsable timestamp is skipped outright —
it contributes to *neither* the matched nor the unmatched-candidate count
(matched + unmatched-candidate = number of parsable candidates) — while a
reference (backtest) record with an unparsable timestamp is never consumed
by any pair, and therefore counts among the unmatched references. -/
theorem c3_unparsable_records (ttol ptol : ℚ) (bt live : List TradeRec)
    (hb : ∀ r ∈ bt, 0 < r.entry_price) (hl : ∀ r ∈ live, 0 < r.entry_price) :
    ∃ res, compare ttol ptol bt live = .ok res ∧
      res.matched + res.unmatched_live = parsableCount live ∧
      ∀ j b, (j, b) ∈ enumL 0 bt → b.dt = none →
        ∀ pr ∈ res.pairs, pr.2 ≠ j := by
  have hbe : ∀ p ∈ enumL 0 bt, 0 < p.2.entry_price :=
    fun p hp => hb p.2 (enumL_mem_snd bt 0 p hp)
  obtain ⟨st2, h2, hcount, hprov⟩ :=
    runLive_spec ttol ptol (enumL 0 bt) hbe live 0 initState hl
  have hc : compare ttol ptol bt live =
      .ok ⟨st2.matched, st2.unmatchedLive, bt.length - st2.consumed.card,
        st2.pairs,
        if 0 < live.length then
          some ((st2.matched : ℚ) / (live.length : ℚ) * 100)
        else none⟩ := by
    simp only [compare, h2]
  refine ⟨_, hc, ?_, ?_⟩
  · simpa [initState] using hcount
  · intro j b hjb hbdt pr hpr
    rcases hprov pr hpr with hp | ⟨b', hb', hdtb'⟩
    · simp [initState] at hp
    · intro hje
      rw [hje] at hb'
      have hbb := enumL_functional bt 0 j b b' hjb hb'
      rw [← hbb] at hdtb'
      exact hdtb' hbdt

/-- **C3** witness: one reference record and one unparsable candidate:
matched + unmatched-candidate = 0 (the unparsable candidate is skipped), no
reference with an unparsable timestamp is ever paired, and the pass
succeeds. -/
theorem c3_unparsable_records_witness :
    ∃ res, compare 300 (2/100) [exBt] [badLive] = .ok res ∧
      res.matched + res.unmatched_live = parsableCount [badLive] ∧
      ∀ j b, (j, b) ∈ enumL 0 [exBt] → b.dt = none →
        ∀ pr ∈ res.pairs, pr.2 ≠ j :=
  c3_unparsable_records 300 (2/100) [exBt] [badLive]
    (by decide) (by decide)

/-! ### C3 and C9 counterexamples -/

/-- **C3** (counterexample): one live (candidate) record with an unparsable
timestamp and an empty backtest collection: the record is skipped by
`continue`, so `unmatched_live` stays 0 — the claim would require the
unmatched-candidate count to be 1. -/
theorem c3_unparsable_live_not_counted_cex :
    compare 300 (2/100) [] [badLive] = .ok ⟨0, 0, 0, [], some 0⟩ := by
  with_unfolding_all rfl

/-- **C9** (counterexample): with an empty live (candidate) collection the
code takes the `No live trades to match.` branch and reports *no* match rate
(`none`), rather than reporting a rate of 0 as the claim states. -/
theorem c9_empty_live_no_rate_cex :
    compare 300 (2/100) [exBt] [] = .ok ⟨0, 0, 1, [], none⟩ := by
  with_unfolding_all rfl

/-- **C9** (amended): with an empty candidate collection no match rate is
computed at all (the division is skipped, so there is no division error and
zero matched pairs); with an empty reference collection and one parsable
candidate record the match rate is 0% and unmatched-candidate is 1. -/
theorem c9_empty_collections (ttol ptol : ℚ) (bt : List TradeRec)
    (r : TradeRec) (t : ℚ) (hr : r.dt = some t) :
    compare ttol ptol bt [] = .ok ⟨0, 0, bt.length, [], none⟩ ∧
    compare ttol ptol [] [r] = .ok ⟨0, 1, 0, [], some 0⟩ := by
  constructor
  · simp [compare, runLive, initState]
  · simp [compare, runLive, step, hr, innerLoop, initState, enumL]

/-- **C9** witness: the amended theorem at a one-record reference collection
and at a one-record candidate collection. -/
theorem c9_empty_collections_witness :
    compare 300 (2/100) [exBt] [] = .ok ⟨0, 0, List.length [exBt], [], none⟩ ∧
    compare 300 (2/100) [] [exLive] = .ok ⟨0, 1, 0, [], some 0⟩ :=
  c9_empty_collections 300 (2/100) [exBt] exLive 120 rfl

end Matching

end TradingBot
